import Mathlib

/-!
Shallow embedding of `ai2thor/interact.py`: the `DefaultActions` static
command table, the prefix-matching key-sequence interpreter driving
`next_interact_command`, the per-step affordance enumeration of
`InteractiveControllerPrompt.interact` (the nested `add_command` closure),
the entry guard of `interact`, and the effect trace of `write_image`.

Modelling conventions: Python strings used as key sequences or filenames
become `List Char` (so prefix matching and `str.strip` are explicit);
machine floats `0.25` / `0.1` become exact rationals (they only ever pass
through unchanged); frame pixel arrays are abstracted to presence
(`Option Unit`) because every property at stake concerns only control
flow, filenames and diagnostics, never pixel values; filesystem writes and
console prints become an explicit `Effect` trace in source order.
-/

/-- A step command: an action name plus the optional named parameters the
source ever attaches (`objectId`, `receptacleObjectId`, `moveMagnitude`),
mirroring the Python dicts built in `default_interact_commands` and in
`add_command`. -/
structure Command where
  action : String
  objectId : Option String := none
  receptacleObjectId : Option String := none
  moveMagnitude : Option ℚ := none
deriving DecidableEq, Repr

/-- Key sequences (Python strings) as explicit character lists. -/
abbrev Key := List Char

/-- The `DefaultActions` enum of the source. -/
inductive DefaultActions where
  | MoveRight | MoveLeft | MoveAhead | MoveBack
  | LookUp | LookDown | RotateRight | RotateLeft
deriving DecidableEq, Repr

/-- `a.name` for the `DefaultActions` enum members. -/
def DefaultActions.name : DefaultActions → String
  | .MoveRight => "MoveRight"
  | .MoveLeft => "MoveLeft"
  | .MoveAhead => "MoveAhead"
  | .MoveBack => "MoveBack"
  | .LookUp => "LookUp"
  | .LookDown => "LookDown"
  | .RotateRight => "RotateRight"
  | .RotateLeft => "RotateLeft"

/-- The literal `default_interact_commands` dict of `__init__`
(insertion order preserved; a Python dict with distinct keys is an
association list looked up by exact key). -/
def default_interact_commands : List (Key × Command) :=
  [("\x1b[C".toList, { action := "MoveRight", moveMagnitude := some 0.25 }),
   ("\x1b[D".toList, { action := "MoveLeft", moveMagnitude := some 0.25 }),
   ("\x1b[A".toList, { action := "MoveAhead", moveMagnitude := some 0.25 }),
   ("\x1b[B".toList, { action := "MoveBack", moveMagnitude := some 0.25 }),
   ("\x1b[1;2A".toList, { action := "LookUp" }),
   ("\x1b[1;2B".toList, { action := "LookDown" }),
   ("i".toList, { action := "LookUp" }),
   ("k".toList, { action := "LookDown" }),
   ("l".toList, { action := "RotateRight" }),
   ("j".toList, { action := "RotateLeft" }),
   ("\x1b[1;2C".toList, { action := "RotateRight" }),
   ("\x1b[1;2D".toList, { action := "RotateLeft" })]

/-- The filtered static table of `__init__`: keep an entry iff its action
name lies in `action_set`, the set of names of the configured
`default_actions`. -/
def staticTable (default_actions : List DefaultActions) : List (Key × Command) :=
  default_interact_commands.filter
    (fun kv => default_actions.any (fun a => a.name == kv.2.action))

/-- All eight members, i.e. the unrestricted configuration. -/
def allDefaultActions : List DefaultActions :=
  [.MoveRight, .MoveLeft, .MoveAhead, .MoveBack,
   .LookUp, .LookDown, .RotateRight, .RotateLeft]

/-- Visible-object descriptor from `event.metadata` with exactly the
attributes `interact` reads.  `toggleable` is `Option Bool` because the
source tests membership first: missing attribute reads as absent
(compare line 127: a key test conjoined with the value). -/
structure Obj where
  objectId : String
  visible : Bool
  openable : Bool
  isopen : Bool
  toggleable : Option Bool
  receptacle : Bool
  pickupable : Bool
deriving DecidableEq, Repr

/-- Python dict lookup `tbl[k]` / `k in tbl` over the association list. -/
def lookupKey (tbl : List (Key × Command)) (k : Key) : Option Command :=
  match tbl with
  | [] => none
  | kv :: rest => if kv.1 = k then some kv.2 else lookupKey rest k

/-- Python `base.copy()` followed by `base.update(upd)`: existing keys keep
their position but take the new value, genuinely new keys are appended. -/
def dictUpdate (base upd : List (Key × Command)) : List (Key × Command) :=
  base.map (fun kv =>
    match lookupKey upd kv.1 with
    | some v => (kv.1, v)
    | none => kv)
  ++ upd.filter (fun kv => (lookupKey base kv.1).isNone)

/-- `str(n)` — decimal rendering of the slot counter. -/
def natKey (n : Nat) : Key := (Nat.repr n).toList

/-- The nested `add_command` closure: state is the pair of the mutable
counter (starting at 1) and the `new_commands` dict in insertion order;
an addition happens only while the counter is below 15, and the key is the
decimal string of the counter before incrementing. -/
def addCommand (st : Nat × List (Key × Command)) (c : Command) :
    Nat × List (Key × Command) :=
  if st.1 < 15 then (st.1 + 1, st.2 ++ [(natKey st.1, c)]) else st

def openCmd (oid : String) : Command :=
  { action := "OpenObject", objectId := some oid }

def closeCmd (oid : String) : Command :=
  { action := "CloseObject", objectId := some oid }

def toggleCmd (oid : String) : Command :=
  { action := "ToggleObjectOff", objectId := some oid }

def putCmd (invId oid : String) : Command :=
  { action := "PutObject", objectId := some invId, receptacleObjectId := some oid }

def moveHandCmd (dir : String) : Command :=
  { action := dir, moveMagnitude := some 0.1 }

def dropCmd : Command :=
  { action := "DropHandObject" }

def pickupCmd (oid : String) : Command :=
  { action := "PickupObject", objectId := some oid }

/-- One iteration of the object loop of `interact` (lines 119-143):
given the step's `inventoryObjects` (as their ids, in order) and the
running `add_command` state, process one object descriptor.  Branch
structure is transcribed from the source: the openable test and the
toggleable test are separate statements; the inventory-gated receptacle
branch and the pickupable branch form one `if`/`elif`, so `PickupObject`
is reachable exactly when the inventory is empty. -/
def processObject (inventoryObjects : List String)
    (st : Nat × List (Key × Command)) (o : Obj) : Nat × List (Key × Command) :=
  if o.visible then
    let st1 :=
      if o.openable then
        if o.isopen then addCommand st (closeCmd o.objectId)
        else addCommand st (openCmd o.objectId)
      else st
    let st2 :=
      if o.toggleable.getD false then addCommand st1 (toggleCmd o.objectId)
      else st1
    match inventoryObjects with
    | inventoryObjectId :: _ =>
      if o.receptacle && (!o.openable || o.isopen)
          && (inventoryObjectId != o.objectId) then
        addCommand (addCommand (addCommand (addCommand (addCommand (addCommand
          (addCommand (addCommand st2
            (putCmd inventoryObjectId o.objectId))
            (moveHandCmd ("MoveHandAhead")))
            (moveHandCmd ("MoveHandBack")))
            (moveHandCmd ("MoveHandRight")))
            (moveHandCmd ("MoveHandLeft")))
            (moveHandCmd ("MoveHandUp")))
            (moveHandCmd ("MoveHandDown")))
            dropCmd
      else st2
    | [] =>
      if o.pickupable then addCommand st2 (pickupCmd o.objectId) else st2
  else st

/-- The freshly generated dynamic table of one step: fold the object loop
over all descriptors of the event, counter starting at 1 and the
`new_commands` dict empty. -/
def interactDynamic (objects : List Obj) (inventoryObjects : List String) :
    List (Key × Command) :=
  (objects.foldl (processObject inventoryObjects) (1, [])).2

/-- The list of affordance commands the object loop generates for a single
object, in source order, before the slot cap is applied.  Proved equal to
`processObject` as a fold of `addCommand` below
(`processObject_eq_foldl`). -/
def objectCommands (inventoryObjects : List String) (o : Obj) : List Command :=
  if o.visible then
    (if o.openable then
      [if o.isopen then closeCmd o.objectId else openCmd o.objectId]
     else []) ++
    (if o.toggleable.getD false then [toggleCmd o.objectId] else []) ++
    (match inventoryObjects with
     | inventoryObjectId :: _ =>
       if o.receptacle && (!o.openable || o.isopen)
           && (inventoryObjectId != o.objectId) then
         [putCmd inventoryObjectId o.objectId,
          moveHandCmd ("MoveHandAhead"), moveHandCmd ("MoveHandBack"),
          moveHandCmd ("MoveHandRight"), moveHandCmd ("MoveHandLeft"),
          moveHandCmd ("MoveHandUp"), moveHandCmd ("MoveHandDown"),
          dropCmd]
       else []
     | [] =>
       if o.pickupable then [pickupCmd o.objectId] else [])
  else []

/-- Outcome of feeding one character to `next_interact_command`. -/
inductive Outcome where
  | quit
  | yielded (c : Command)
  | pending
deriving DecidableEq, Repr

/-- One iteration of the scan loop of `next_interact_command`
(lines 168-185): append the character, test the whole buffer against the
quit literals, then exact table match (yield and reset), then the
prefix-of-some-key test (keep accumulating), else reset. -/
def charStep (commands : List (Key × Command)) (buffer : Key) (ch : Char) :
    Outcome × Key :=
  if buffer ++ [ch] = ['q'] ∨ buffer ++ [ch] = ['\x03'] then
    (Outcome.quit, buffer ++ [ch])
  else
    match lookupKey commands (buffer ++ [ch]) with
    | some c => (Outcome.yielded c, [])
    | none =>
      if commands.any (fun kv => (buffer ++ [ch]).isPrefixOf kv.1) then
        (Outcome.pending, buffer ++ [ch])
      else (Outcome.pending, [])

/-- Run the scan loop over a finite character feed with a fixed active
table, collecting the yielded commands, the final buffer and whether the
loop terminated via the quit rule. -/
def runChars (commands : List (Key × Command)) (buf : Key)
    (input : List Char) : List Command × Key × Bool :=
  match input with
  | [] => ([], buf, false)
  | ch :: rest =>
    match charStep commands buf ch with
    | (Outcome.quit, b) => ([], b, true)
    | (Outcome.yielded c, b) =>
      let r := runChars commands b rest
      (c :: r.1, r.2.1, r.2.2)
    | (Outcome.pending, b) => runChars commands b rest

/-- Entry guard of `interact` (lines 84-85).  Both standard streams' tty
status are taken as inputs so the specified behaviour can be stated, but —
transcribing the source — only `sys.stdout.isatty()` is consulted; the
check precedes every keystroke read. -/
def interactGuard (_stdin_isatty stdout_isatty : Bool) : Except String Unit :=
  if !stdout_isatty then
    Except.error ("controller.interact() must be run from a terminal")
  else Except.ok ()

/-- The four optional frames of an `Event`, content abstracted to
presence. -/
structure EventFrames where
  frame : Option Unit
  instance_segmentation_frame : Option Unit
  class_segmentation_frame : Option Unit
  depth_frame : Option Unit
deriving DecidableEq, Repr

/-- Observable effects of `write_image`, in program order. -/
inductive Effect where
  | printShape
  | printImageMsg (name : Key)
  | saveImage (name : Key)
  | saveNpy (base : Key)
  | printNoFrame
deriving DecidableEq, Repr

/-- Python `s.strip(cs)`: remove leading and trailing characters drawn
from the character SET `cs` (not suffix removal). -/
def pyStrip (cs : List Char) (s : List Char) : List Char :=
  ((s.dropWhile (fun c => cs.contains c)).reverse.dropWhile
    (fun c => cs.contains c)).reverse

/-- `os.path.join` for the two-argument posix case used here. -/
def osPathJoin (d f : List Char) : List Char :=
  if f.head? = some '/' then f
  else if d = [] then f
  else if d.getLast? = some '/' then d ++ f
  else d ++ '/' :: f

/-- Effect trace of `write_image` (lines 188-272).  The five channel
tuples of `frame_writes` carry their enabling flag, but — transcribing the
loop at line 250 — the flag (`condition`) is never consulted: presence of
the frame alone decides between writing and the missing-frame diagnostic.
The depth-raw channel saves under `name.strip(".png")`; the others under
`name` itself.  Parameter order follows the source signature. -/
def write_image (event : EventFrames) (image_dir : Key) (suffix : Nat)
    (image_per_frame : Bool) (class_segmentation_frame : Bool)
    (instance_segmentation_frame : Bool) (depth_frame : Bool)
    (color_frame : Bool) : List Effect :=
  let imageName := fun (frame_filename : Key) =>
    osPathJoin image_dir
      (frame_filename ++
        (if image_per_frame then (Nat.repr suffix).toList else []) ++
        ".png".toList)
  let channel := fun (frame_filename : Key) (_condition : Bool)
      (frameOpt : Option Unit) (isNpy : Bool) =>
    match frameOpt with
    | some _ =>
      [Effect.printShape, Effect.printImageMsg (imageName frame_filename)] ++
      (if isNpy then
        [Effect.saveNpy (pyStrip ".png".toList (imageName frame_filename))]
       else [Effect.saveImage (imageName frame_filename)])
    | none => [Effect.printNoFrame]
  channel "color".toList color_frame event.frame false ++
  channel "instance_segmentation".toList instance_segmentation_frame
    event.instance_segmentation_frame false ++
  channel "class_segmentation".toList class_segmentation_frame
    event.class_segmentation_frame false ++
  channel "depth".toList depth_frame event.depth_frame false ++
  channel "depth_raw".toList depth_frame event.depth_frame true

/-- A visible, pickupable, closed, non-openable, non-receptacle object. -/
def mkPickup (oid : String) : Obj := ⟨oid, true, false, false, none, false, true⟩

def objs14 : List Obj :=
  [mkPickup ("o1"), mkPickup ("o2"), mkPickup ("o3"), mkPickup ("o4"),
   mkPickup ("o5"), mkPickup ("o6"), mkPickup ("o7"), mkPickup ("o8"),
   mkPickup ("o9"), mkPickup ("o10"), mkPickup ("o11"), mkPickup ("o12"),
   mkPickup ("o13"), mkPickup ("o14")]

def objs15 : List Obj := objs14 ++ [mkPickup ("o15")]

/-- Active table of a step whose event shows fourteen pickup affordances:
static defaults overlaid by the generated dynamic entries. -/
def tbl14 : List (Key × Command) :=
  dictUpdate (staticTable allDefaultActions) (interactDynamic objs14 [])

/-- Claim C1's object: visible, openable and closed, not toggleable, not a
receptacle, pickupable. -/
def oC1 : Obj := ⟨"Box|1", true, true, false, some false, false, true⟩

/-- Claim C8's object: visible, open, toggleable, a receptacle, not
pickupable. -/
def oC8 : Obj := ⟨"Cabinet|1", true, true, true, some true, true, false⟩

/-- An event carrying only a depth frame. -/
def evDepthOnly : EventFrames := ⟨none, none, none, some ()⟩

/-- An event with every frame absent. -/
def evAllAbsent : EventFrames := ⟨none, none, none, none⟩

/-- An event with every frame present. -/
def evAllPresent : EventFrames := ⟨some (), some (), some (), some ()⟩

/-- Invariant of the `add_command` state: the counter stays within
`1..15`, the dict holds exactly `counter - 1` entries, and every key is
the decimal string of a slot number strictly below the counter. -/
def tableInv (st : Nat × List (Key × Command)) : Prop :=
  1 ≤ st.1 ∧ st.1 ≤ 15 ∧ st.2.length + 1 = st.1 ∧
  ∀ kv ∈ st.2, ∃ i, 1 ≤ i ∧ i < st.1 ∧ kv.1 = natKey i

/-! ### Structural lemmas -/

/-- A successful dict lookup exhibits a member with that key. -/
theorem lookupKey_mem {tbl : List (Key × Command)} {k : Key} {v : Command}
    (h : lookupKey tbl k = some v) : ∃ kv ∈ tbl, kv.1 = k := by
  induction tbl with
  | nil => simp [lookupKey] at h
  | cons kv rest ih =>
    by_cases hk : kv.1 = k
    · exact ⟨kv, List.mem_cons_self kv rest, hk⟩
    · rw [lookupKey, if_neg hk] at h
      obtain ⟨kv', h1, h2⟩ := ih h
      exact ⟨kv', List.mem_cons_of_mem _ h1, h2⟩

/-- The object loop body is the fold of `addCommand` over the per-object
command list. -/
theorem processObject_eq_foldl (inv : List String)
    (st : Nat × List (Key × Command)) (o : Obj) :
    processObject inv st o = (objectCommands inv o).foldl addCommand st := by
  rcases o with ⟨oid, vis, opn, isop, tog, rec, pick⟩
  cases inv with
  | nil =>
    cases vis <;> cases opn <;> cases isop <;> cases pick <;>
      rcases tog with _ | b <;> (try cases b) <;>
      simp [processObject, objectCommands, List.foldl_cons, List.foldl_nil]
  | cons hd tl =>
    cases vis <;> cases opn <;> cases isop <;> cases rec <;>
      rcases tog with _ | b <;> (try cases b) <;>
      by_cases hne : (hd != oid) = true <;>
      simp [processObject, objectCommands, hne, List.foldl_cons, List.foldl_nil]

/-- `addCommand` below the cap: append the keyed entry and advance. -/
theorem addCommand_lt (st : Nat × List (Key × Command)) (c : Command)
    (h : st.1 < 15) :
    addCommand st c = (st.1 + 1, st.2 ++ [(natKey st.1, c)]) := by
  simp [addCommand, h]

/-- `addCommand` preserves the counter/key invariant. -/
theorem addCommand_tableInv {st : Nat × List (Key × Command)} (c : Command)
    (h : tableInv st) : tableInv (addCommand st c) := by
  obtain ⟨h1, h2, h3, h4⟩ := h
  unfold addCommand
  by_cases hlt : st.1 < 15
  · rw [if_pos hlt]
    refine ⟨by omega, by omega, by simp; omega, ?_⟩
    intro kv hkv
    rcases List.mem_append.mp hkv with hm | hm
    · obtain ⟨i, hi1, hi2, hi3⟩ := h4 kv hm
      exact ⟨i, hi1, by omega, hi3⟩
    · have hkv' : kv = (natKey st.1, c) := by simpa using hm
      exact ⟨st.1, h1, by omega, by rw [hkv']⟩
  · rw [if_neg hlt]
    exact ⟨h1, h2, h3, h4⟩

/-- Folding any command list through `addCommand` preserves the
invariant. -/
theorem foldl_addCommand_tableInv (cs : List Command)
    {st : Nat × List (Key × Command)} (h : tableInv st) :
    tableInv (cs.foldl addCommand st) := by
  induction cs generalizing st with
  | nil => exact h
  | cons c cs ih => exact ih (addCommand_tableInv c h)

/-- Folding the object loop over any descriptor list preserves the
invariant. -/
theorem foldl_processObject_tableInv (objs : List Obj) (inv : List String)
    {st : Nat × List (Key × Command)} (h : tableInv st) :
    tableInv (objs.foldl (processObject inv) st) := by
  induction objs generalizing st with
  | nil => exact h
  | cons o objs ih =>
    refine ih ?_
    rw [processObject_eq_foldl]
    exact foldl_addCommand_tableInv _ h

/-- Every entry after a fold of `addCommand` is an old entry or carries
one of the folded commands. -/
theorem mem_foldl_addCommand {cs : List Command}
    {st : Nat × List (Key × Command)} {kv : Key × Command}
    (h : kv ∈ (cs.foldl addCommand st).2) : kv ∈ st.2 ∨ kv.2 ∈ cs := by
  induction cs generalizing st with
  | nil => exact Or.inl h
  | cons c cs ih =>
    rcases ih h with h' | h'
    · unfold addCommand at h'
      by_cases hlt : st.1 < 15
      · rw [if_pos hlt] at h'
        rcases List.mem_append.mp h' with hm | hm
        · exact Or.inl hm
        · right
          have hkv : kv = (natKey st.1, c) := by simpa using hm
          simp [hkv]
      · rw [if_neg hlt] at h'
        exact Or.inl h'
    · exact Or.inr (List.mem_cons_of_mem _ h')

/-- Feeding `'q'` or the interrupt byte to an empty buffer quits. -/
theorem charStep_quit_empty (tbl : List (Key × Command)) (ch : Char)
    (h : ch = 'q' ∨ ch = '\x03') : charStep tbl [] ch = (Outcome.quit, [ch]) := by
  rcases h with rfl | rfl <;> simp [charStep]

/-- With a non-empty buffer no single character can trigger the quit rule,
because the whole buffer is compared against the one-character quit
literals. -/
theorem charStep_ne_quit {tbl : List (Key × Command)} {buf : Key} {ch : Char}
    (h : buf ≠ []) : (charStep tbl buf ch).1 ≠ Outcome.quit := by
  have h1 : buf ++ [ch] ≠ ['q'] := by
    intro he
    have hlen := congrArg List.length he
    simp at hlen
    exact h hlen
  have h2 : buf ++ [ch] ≠ ['\x03'] := by
    intro he
    have hlen := congrArg List.length he
    simp at hlen
    exact h hlen
  unfold charStep
  rw [if_neg (by simp [h1, h2])]
  cases hl : lookupKey tbl (buf ++ [ch]) with
  | some c => simp
  | none =>
    by_cases hany : (tbl.any fun kv => List.isPrefixOf (buf ++ [ch]) kv.1) = true
    · simp [hany]
    · simp [hany]

/-- `charStep` evaluation when the buffer completes a table key. -/
theorem charStep_eval_yield {tbl : List (Key × Command)} {buf : Key}
    {ch : Char} {v : Command}
    (h1 : buf ++ [ch] ≠ ['q']) (h2 : buf ++ [ch] ≠ ['\x03'])
    (h3 : lookupKey tbl (buf ++ [ch]) = some v) :
    charStep tbl buf ch = (Outcome.yielded v, []) := by
  unfold charStep
  rw [if_neg (by simp [h1, h2]), h3]

/-- `charStep` evaluation when the buffer is a strict prefix of some table
key and matches none. -/
theorem charStep_eval_pending {tbl : List (Key × Command)} {buf : Key} {ch : Char}
    (h1 : buf ++ [ch] ≠ ['q']) (h2 : buf ++ [ch] ≠ ['\x03'])
    (h3 : lookupKey tbl (buf ++ [ch]) = none)
    (h4 : tbl.any (fun kv => (buf ++ [ch]).isPrefixOf kv.1) = true) :
    charStep tbl buf ch = (Outcome.pending, buf ++ [ch]) := by
  unfold charStep
  rw [if_neg (by simp [h1, h2]), h3, if_pos h4]

/-- Scanning the remaining characters of a table key whose strict prefixes
are neither keys nor quit literals yields exactly that key's command and
resets the buffer. -/
theorem runChars_key_aux {tbl : List (Key × Command)} {k : Key} {v : Command}
    (hv : lookupKey tbl k = some v) (hq1 : k ≠ ['q']) (hq2 : k ≠ ['\x03'])
    (hp : ∀ p : Key, p <+: k → p ≠ k →
      lookupKey tbl p = none ∧ p ≠ ['q'] ∧ p ≠ ['\x03']) :
    ∀ (s p : List Char), p ++ s = k → p ≠ k →
      runChars tbl p s = ([v], [], false) := by
  intro s
  induction s with
  | nil =>
    intro p hpk hne
    simp at hpk
    exact absurd hpk hne
  | cons ch rest ih =>
    intro p hpk hne
    rcases eq_or_ne rest [] with hrest | hrest
    · subst hrest
      have hbk : p ++ [ch] = k := by simpa using hpk
      have hcs := charStep_eval_yield
        (by rw [hbk]; exact hq1) (by rw [hbk]; exact hq2) (by rw [hbk]; exact hv)
      simp [runChars, hcs]
    · have hbk : (p ++ [ch]) ++ rest = k := by simpa [List.append_assoc] using hpk
      have hpre : (p ++ [ch]) <+: k := ⟨rest, hbk⟩
      have hbne : p ++ [ch] ≠ k := by
        intro he
        rw [he] at hbk
        have hlen := congrArg List.length hbk
        simp at hlen
        exact hrest hlen
      obtain ⟨hl, hq1', hq2'⟩ := hp _ hpre hbne
      obtain ⟨kv, hkv, hkvk⟩ := lookupKey_mem hv
      have hany : tbl.any (fun kv => (p ++ [ch]).isPrefixOf kv.1) = true := by
        refine List.any_eq_true.mpr ⟨kv, hkv, ?_⟩
        rw [List.isPrefixOf_iff_prefix, hkvk]
        exact hpre
      have hcs := charStep_eval_pending hq1' hq2' hl hany
      simp only [runChars, hcs]
      exact ih (p ++ [ch]) hbk hbne

/-- The only prefixes of a one-element list. -/
theorem prefix_single {α : Type} {a : α} {p : List α}
    (h : p <+: [a]) : p = [] ∨ p = [a] := by
  rcases h with ⟨t, ht⟩
  cases p with
  | nil => exact Or.inl rfl
  | cons b bs =>
    simp only [List.cons_append] at ht
    injection ht with hb hbs
    subst hb
    right
    have hnil := List.append_eq_nil.mp hbs
    simp [hnil.1]

/-- The object loop reads the inventory only through its first element. -/
theorem processObject_head_only (i0 : String) (rest rest' : List String) :
    processObject (i0 :: rest) = processObject (i0 :: rest') := rfl

/-- In a step with a non-empty inventory, any generated command whose
action is `PutObject` names the first inventory item. -/
theorem objectCommands_putObject {i0 : String} {t : List String} {o : Obj}
    {c : Command} (hc : c ∈ objectCommands (i0 :: t) o)
    (ha : c.action = "PutObject") : c.objectId = some i0 := by
  simp only [objectCommands] at hc
  split at hc
  · simp only [List.mem_append] at hc
    rcases hc with (h | h) | h
    · split at h
      · split at h <;> (simp at h; subst h)
        · simp [closeCmd] at ha
        · simp [openCmd] at ha
      · simp at h
    · split at h
      · simp at h
        subst h
        simp [toggleCmd] at ha
      · simp at h
    · split at h
      · simp at h
        rcases h with h | h | h | h | h | h | h | h <;> subst h
        · simp [putCmd]
        all_goals simp [moveHandCmd, dropCmd] at ha
      · simp at h
  · simp at hc

/-- A descriptor lacking the `toggleable` attribute contributes no
`ToggleObjectOff` command. -/
theorem objectCommands_no_toggle {inv : List String} {o : Obj} {c : Command}
    (hto : o.toggleable = none) (hc : c ∈ objectCommands inv o) :
    c.action ≠ "ToggleObjectOff" := by
  rcases inv with _ | ⟨i0, t⟩ <;>
  · simp only [objectCommands, hto, Option.getD_none, if_neg Bool.false_ne_true,
      List.nil_append] at hc
    split at hc
    · simp only [List.mem_append] at hc
      rcases hc with h | h
      · split at h
        · split at h <;> (simp at h; subst h)
          · simp [closeCmd]
          · simp [openCmd]
        · simp at h
      · split at h
        · simp at h
          first
          | (subst h; simp [pickupCmd])
          | (rcases h with h | h | h | h | h | h | h | h <;> subst h <;>
              simp [putCmd, moveHandCmd, dropCmd])
        · simp at h
    · simp at hc

/-! ### Claims -/

/-- Claim C1, counterexample: for a visible, openable-and-closed,
non-toggleable, non-receptacle, pickupable object with an empty inventory,
the dynamic table holds TWO entries — `OpenObject` and then
`PickupObject` — not the single `OpenObject` entry the claim states:
with an empty inventory the `elif o.pickupable` branch still fires. -/
theorem c1_cex :
    interactDynamic [oC1] [] =
      [(natKey 1, openCmd ("Box|1")), (natKey 2, pickupCmd ("Box|1"))] ∧
    (interactDynamic [oC1] []).length ≠ 1 ∧
    (natKey 2, pickupCmd ("Box|1")) ∈ interactDynamic [oC1] [] := by decide

/-- Claim C1, amended: for such an object the generated dynamic commands
are exactly two, `OpenObject` then `PickupObject`, in that order (and for
a step whose event holds just this object, slots "1" and "2"). -/
theorem c1_amended_open_then_pickup (o : Obj)
    (h1 : o.visible = true) (h2 : o.openable = true) (h3 : o.isopen = false)
    (h4 : o.toggleable.getD false = false) (_h5 : o.receptacle = false)
    (h6 : o.pickupable = true) :
    objectCommands [] o = [openCmd o.objectId, pickupCmd o.objectId] ∧
    interactDynamic [o] [] =
      [(natKey 1, openCmd o.objectId), (natKey 2, pickupCmd o.objectId)] := by
  have hoc : objectCommands [] o = [openCmd o.objectId, pickupCmd o.objectId] := by
    simp [objectCommands, h1, h2, h3, h4, h6]
  refine ⟨hoc, ?_⟩
  simp [interactDynamic, processObject_eq_foldl, hoc, addCommand, List.foldl_cons,
    List.foldl_nil]

/-- Claim C1, witness for the amended statement at a concrete object. -/
theorem c1_witness :
    objectCommands [] oC1 = [openCmd ("Box|1"), pickupCmd ("Box|1")] :=
  (c1_amended_open_then_pickup oC1 rfl rfl rfl rfl rfl rfl).1

/-- Claim C2: refuted — `write_image` never consults the channel-enabling
flags (the `condition` component of each `frame_writes` tuple is unused),
so with all flags false it still prints the missing-frame diagnostic for
every absent frame and still writes every present frame. -/
theorem c2_flags_ignored :
    write_image evAllAbsent ("images".toList) 0 false false false false false =
      [Effect.printNoFrame, Effect.printNoFrame, Effect.printNoFrame,
       Effect.printNoFrame, Effect.printNoFrame] ∧
    Effect.saveImage ("images/color.png".toList) ∈
      write_image evAllPresent ("images".toList) 0 false false false false false := by
  decide

/-- Claim C3, counterexample: in a step generating fourteen dynamic
entries, the table key "14" exists, but feeding '1' then '4' yields the
commands of keys "1" and "4" (two commands), never the command of "14" —
an exact match is taken the moment the buffer equals any key. -/
theorem c3_cex :
    lookupKey tbl14 ("14".toList) = some (pickupCmd ("o14")) ∧
    runChars tbl14 [] ("14".toList) =
      ([pickupCmd ("o1"), pickupCmd ("o4")], [], false) ∧
    [pickupCmd ("o1"), pickupCmd ("o4")] ≠ [pickupCmd ("o14")] := by decide

/-- Claim C3, amended: feeding a table key character by character from an
empty buffer yields exactly that key's command once and empties the
buffer, PROVIDED no strict prefix of the key is itself a table key or a
quit literal (true of all static keys and of dynamic keys "1".."9", but
false for "10".."14", whose first character already matches key "1"). -/
theorem c3_amended_single_key (tbl : List (Key × Command)) (k : Key)
    (v : Command) (hk : k ≠ []) (hv : lookupKey tbl k = some v)
    (hq1 : k ≠ ['q']) (hq2 : k ≠ ['\x03'])
    (hp : ∀ p : Key, p <+: k → p ≠ k →
      lookupKey tbl p = none ∧ p ≠ ['q'] ∧ p ≠ ['\x03']) :
    runChars tbl [] k = ([v], [], false) :=
  runChars_key_aux hv hq1 hq2 hp k [] rfl (fun he => hk he.symm)

/-- Claim C3, witness: the static key "i" resolves to `LookUp`. -/
theorem c3_witness :
    runChars (staticTable allDefaultActions) [] ['i'] =
      ([{ action := "LookUp" }], [], false) := by
  refine c3_amended_single_key (staticTable allDefaultActions) ['i']
    ({ action := "LookUp" }) (by decide) (by decide) (by decide) (by decide) ?_
  intro p hp hne
  rcases prefix_single hp with rfl | rfl
  · exact ⟨by decide, by decide, by decide⟩
  · exact absurd rfl hne

/-- Claim C4, counterexample: with standard input NOT a terminal but
standard output a terminal, the guard raises nothing — the source tests
`sys.stdout.isatty()`, not standard input. -/
theorem c4_cex : interactGuard false true = Except.ok () := rfl

/-- Claim C4, amended: the session refuses to start, before any keystroke
is read, exactly when standard OUTPUT is not an interactive terminal,
whatever the standard-input status. -/
theorem c4_amended_stdout_guard (stdin_isatty : Bool) :
    interactGuard stdin_isatty false =
      Except.error ("controller.interact() must be run from a terminal") := rfl

/-- Claim C5, counterexample: after the escape character (a live prefix of
the arrow-key sequences) the buffer is non-empty, and a following 'q' does
NOT terminate the loop: the quit test compares the whole buffer, so the
'q' is swallowed and the buffer merely resets. -/
theorem c5_cex :
    runChars (staticTable allDefaultActions) [] ['\x1b', 'q'] =
      ([], [], false) := by decide

/-- Claim C5, amended: a quit character terminates the loop without
yielding exactly when the buffer is empty when it arrives; with a
non-empty partial buffer no single character can trigger the quit rule. -/
theorem c5_amended_quit_needs_empty_buffer (tbl : List (Key × Command))
    (buf : Key) (ch : Char) :
    (buf = [] → (ch = 'q' ∨ ch = '\x03') →
      charStep tbl buf ch = (Outcome.quit, [ch])) ∧
    (buf ≠ [] → (charStep tbl buf ch).1 ≠ Outcome.quit) := by
  constructor
  · intro hb hch
    subst hb
    exact charStep_quit_empty tbl ch hch
  · intro hb
    exact charStep_ne_quit hb

/-- Claim C5, witness: quit fires on an empty buffer, not after a pending
escape prefix. -/
theorem c5_witness :
    charStep (staticTable allDefaultActions) [] 'q' = (Outcome.quit, ['q']) ∧
    (charStep (staticTable allDefaultActions) ['\x1b'] 'q').1 ≠ Outcome.quit :=
  ⟨(c5_amended_quit_needs_empty_buffer (staticTable allDefaultActions) [] 'q').1
      rfl (Or.inl rfl),
   (c5_amended_quit_needs_empty_buffer (staticTable allDefaultActions) ['\x1b'] 'q').2
      (by decide)⟩

/-- Claim C6: refuted on the default image directory — `np.save` is given
`name.strip(".png")`, which strips the character SET so the leading '.' of
"./depth_raw.png" is removed too: the raw array goes to base "/depth_raw",
not to the image filename "./depth_raw.png" minus its ".png" suffix. -/
theorem c6_strip_not_suffix :
    Effect.printImageMsg ("./depth_raw.png".toList) ∈
      write_image evDepthOnly (".".toList) 7 false false false true false ∧
    Effect.saveNpy ("/depth_raw".toList) ∈
      write_image evDepthOnly (".".toList) 7 false false false true false ∧
    pyStrip (".png".toList) ("./depth_raw.png".toList) = "/depth_raw".toList ∧
    ("/depth_raw".toList) ≠ ("./depth_raw".toList) := by decide

/-- Claim C7: the dynamic table of any step holds at most 14 entries, all
keyed by the decimal strings of slots 1..14, and once the counter reaches
the cap `addCommand` drops further commands leaving the state untouched. -/
theorem c7_dynamic_cap (objects : List Obj) (inventoryObjects : List String) :
    (interactDynamic objects inventoryObjects).length ≤ 14 ∧
    (∀ kv ∈ interactDynamic objects inventoryObjects,
      ∃ i, 1 ≤ i ∧ i ≤ 14 ∧ kv.1 = natKey i) ∧
    (∀ (st : Nat × List (Key × Command)) (c : Command), ¬ st.1 < 15 →
      addCommand st c = st) := by
  have h := @foldl_processObject_tableInv objects inventoryObjects
    (1, []) ⟨le_refl 1, by omega, rfl, by simp⟩
  obtain ⟨h1, h2, h3, h4⟩ := h
  unfold interactDynamic
  refine ⟨by omega, ?_, ?_⟩
  · intro kv hkv
    obtain ⟨i, hi1, hi2, hi3⟩ := h4 kv hkv
    exact ⟨i, hi1, by omega, hi3⟩
  · intro st c hc
    simp [addCommand, hc]

/-- Claim C7, witness: fifteen qualifying objects still give at most
fourteen entries, and a capped state swallows additions unchanged. -/
theorem c7_witness :
    (interactDynamic objs15 []).length ≤ 14 ∧
    addCommand (20, []) dropCmd = (20, []) :=
  ⟨(c7_dynamic_cap objs15 []).1,
   (c7_dynamic_cap objs15 []).2.2 (20, []) dropCmd (by decide)⟩

/-- Claim C8: for a visible, open, toggleable receptacle that is not
pickupable, with a non-empty inventory whose held item is not this object,
the commands generated for the object are exactly, in order: CloseObject,
ToggleObjectOff, PutObject, the six MoveHand nudges, DropHandObject — and
whenever the loop reaches the object with its counter at most 5 (so the
14-slot cap is not hit), they land in ten consecutive slots. -/
theorem c8_receptacle_order (o : Obj) (i0 : String) (rest : List String)
    (h1 : o.visible = true) (h2 : o.openable = true) (h3 : o.isopen = true)
    (h4 : o.toggleable = some true) (h5 : o.receptacle = true)
    (_h6 : o.pickupable = false) (h7 : i0 ≠ o.objectId) :
    objectCommands (i0 :: rest) o =
      [closeCmd o.objectId, toggleCmd o.objectId, putCmd i0 o.objectId,
       moveHandCmd ("MoveHandAhead"), moveHandCmd ("MoveHandBack"),
       moveHandCmd ("MoveHandRight"), moveHandCmd ("MoveHandLeft"),
       moveHandCmd ("MoveHandUp"), moveHandCmd ("MoveHandDown"), dropCmd] ∧
    ∀ st : Nat × List (Key × Command), st.1 ≤ 5 →
      processObject (i0 :: rest) st o =
        (st.1 + 10,
         st.2 ++ [(natKey st.1, closeCmd o.objectId),
           (natKey (st.1 + 1), toggleCmd o.objectId),
           (natKey (st.1 + 2), putCmd i0 o.objectId),
           (natKey (st.1 + 3), moveHandCmd ("MoveHandAhead")),
           (natKey (st.1 + 4), moveHandCmd ("MoveHandBack")),
           (natKey (st.1 + 5), moveHandCmd ("MoveHandRight")),
           (natKey (st.1 + 6), moveHandCmd ("MoveHandLeft")),
           (natKey (st.1 + 7), moveHandCmd ("MoveHandUp")),
           (natKey (st.1 + 8), moveHandCmd ("MoveHandDown")),
           (natKey (st.1 + 9), dropCmd)]) := by
  have hoc : objectCommands (i0 :: rest) o =
      [closeCmd o.objectId, toggleCmd o.objectId, putCmd i0 o.objectId,
       moveHandCmd ("MoveHandAhead"), moveHandCmd ("MoveHandBack"),
       moveHandCmd ("MoveHandRight"), moveHandCmd ("MoveHandLeft"),
       moveHandCmd ("MoveHandUp"), moveHandCmd ("MoveHandDown"), dropCmd] := by
    simp [objectCommands, h1, h2, h3, h4, h5, h7]
  refine ⟨hoc, ?_⟩
  intro st hst
  obtain ⟨n, l⟩ := st
  have hn : n ≤ 5 := hst
  rw [processObject_eq_foldl, hoc]
  interval_cases n <;>
    simp [addCommand, natKey, List.foldl_cons, List.foldl_nil, List.append_assoc]

/-- Claim C8, witness: a concrete such step fills slots "1" through
"10". -/
theorem c8_witness :
    processObject [("held")] (1, []) oC8 =
      (11,
       [(natKey 1, closeCmd ("Cabinet|1")), (natKey 2, toggleCmd ("Cabinet|1")),
        (natKey 3, putCmd ("held") ("Cabinet|1")),
        (natKey 4, moveHandCmd ("MoveHandAhead")),
        (natKey 5, moveHandCmd ("MoveHandBack")),
        (natKey 6, moveHandCmd ("MoveHandRight")),
        (natKey 7, moveHandCmd ("MoveHandLeft")),
        (natKey 8, moveHandCmd ("MoveHandUp")),
        (natKey 9, moveHandCmd ("MoveHandDown")),
        (natKey 10, dropCmd)]) := by
  have h := (c8_receptacle_order oC8 ("held") [] rfl rfl rfl rfl rfl rfl
    (by decide)).2 (1, []) (by decide)
  simpa using h

/-- Claim C9: with a non-empty inventory every generated `PutObject`
command names the first inventory item, and the whole enumeration depends
on the inventory only through that first item — items past the head are
never consulted. -/
theorem c9_put_first_item (objects : List Obj) (i0 : String)
    (rest rest' : List String) :
    (∀ kv ∈ interactDynamic objects (i0 :: rest),
      kv.2.action = "PutObject" → kv.2.objectId = some i0) ∧
    interactDynamic objects (i0 :: rest) = interactDynamic objects (i0 :: rest') := by
  constructor
  · suffices h : ∀ st : Nat × List (Key × Command),
        (∀ kv ∈ st.2, kv.2.action = "PutObject" → kv.2.objectId = some i0) →
        ∀ kv ∈ (objects.foldl (processObject (i0 :: rest)) st).2,
          kv.2.action = "PutObject" → kv.2.objectId = some i0 by
      intro kv hkv ha
      exact h (1, []) (by simp) kv hkv ha
    induction objects with
    | nil => intro st hst; exact hst
    | cons o os ih =>
      intro st hst
      refine ih (processObject (i0 :: rest) st o) ?_
      intro kv' hkv' ha'
      rw [processObject_eq_foldl] at hkv'
      rcases mem_foldl_addCommand hkv' with h' | h'
      · exact hst kv' h' ha'
      · exact objectCommands_putObject h' ha'
  · unfold interactDynamic
    rw [processObject_head_only i0 rest rest']

/-- Claim C9, witness: a held item plus a second inventory item behaves
exactly as the held item alone. -/
theorem c9_witness :
    interactDynamic [oC8] (("held") :: [("spoon")]) =
      interactDynamic [oC8] [("held")] :=
  (c9_put_first_item [oC8] ("held") [("spoon")] []).2

/-- Claim C10: a visible descriptor lacking the `toggleable` attribute is
treated exactly as a non-toggleable one — the enumeration result is the
one obtained with `toggleable` present and false, and every
`ToggleObjectOff` entry of the resulting state was already there before
this object was processed. -/
theorem c10_missing_toggleable (inv : List String)
    (st : Nat × List (Key × Command)) (o : Obj) (h : o.toggleable = none) :
    processObject inv st o =
      processObject inv st { o with toggleable := some false } ∧
    ∀ kv ∈ (processObject inv st o).2,
      kv.2.action = "ToggleObjectOff" → kv ∈ st.2 := by
  constructor
  · rcases o with ⟨oid, vis, opn, isop, tog, rec, pick⟩
    simp only at h
    subst h
    rfl
  · intro kv hkv ha
    rw [processObject_eq_foldl] at hkv
    rcases mem_foldl_addCommand hkv with h' | h'
    · exact h'
    · exact absurd ha (objectCommands_no_toggle h h')

/-- Claim C10, witness: a pickupable object without the attribute
enumerates exactly as the same object with `toggleable = false`. -/
theorem c10_witness :
    processObject [] (1, []) (mkPickup ("ball")) =
      processObject [] (1, []) { mkPickup ("ball") with toggleable := some false } :=
  (c10_missing_toggleable [] (1, []) (mkPickup ("ball")) rfl).1
